import Mathlib

/-!
# HealthPulse — formal model of the facilities frontend and the scraping pipeline

Shallow embedding of the HealthPulse repository.  The first half embeds the
TypeScript frontend code that is present in the repository source
(`mapOSMToFacility`, the direct-Overpass `facilitiesApi.getAll`, and the
retry-with-backoff loop of `loadFacilities`).  The second half models the
backend acquisition pipeline (Source Gate, Tier Dispatcher, Version Tracker,
ETL job state machine, orchestrator concurrency rule): that code belongs to
the repository's backend, which is referenced by the testing guide but whose
implementation files are not in the source tree, so those definitions are
modelled from the specification and marked as such.
-/

namespace HealthPulse

/-! ## JavaScript value helpers

The TypeScript code manipulates possibly-missing string tags with JS
truthiness (absent and empty strings are falsy) and numbers that can be `NaN`
(`parseFloat` of a missing value).  `JNum` models a JS number as either a
rational value or `NaN`; `jIsZero` models the `=== 0` comparison (`NaN === 0`
is false, so a `NaN` coordinate passes a `!== 0` test). -/

inductive JNum where
  | nan : JNum
  | val : ℚ → JNum
deriving DecidableEq, Repr

/-- Model of `parseFloat` applied to a possibly-missing numeric field: a
missing field yields `NaN`. -/
def parseFloatOpt : Option ℚ → JNum
  | none => JNum.nan
  | some q => JNum.val q

/-- The JS test `x === 0` on a number: false for `NaN`. -/
def jIsZero : JNum → Bool
  | JNum.nan => false
  | JNum.val q => q == 0

/-- JS truthiness of a possibly-missing string: absent and `""` are falsy. -/
def truthyStr : Option String → Bool
  | none => false
  | some s => !s.isEmpty

/-- The JS `a || b` chain on possibly-missing strings. -/
def orTruthy (a b : Option String) : Option String :=
  if truthyStr a then a else b

/-- The JS `a || d` with a string default: yields `d` unless `a` is truthy. -/
def strOrDefault (a : Option String) (d : String) : String :=
  match a with
  | some s => if s.isEmpty then d else s
  | none => d

/-! ## Types from `src/types` (src/unnamed/part_005) -/

inductive FacilityType where
  | HOSPITAL : FacilityType
  | CLINIC : FacilityType
deriving DecidableEq, Repr

inductive PipelineStatus where
  | COMPLETED : PipelineStatus
  | PROCESSING : PipelineStatus
  | FAILED : PipelineStatus
  | PENDING : PipelineStatus
deriving DecidableEq, Repr

structure Coordinates where
  lat : JNum
  lng : JNum
deriving DecidableEq, Repr

structure Facility where
  id : String
  name : String
  type : FacilityType
  location : Coordinates
  address : String
  contact : String
  lastUpdated : String
  isDuplicate : Bool
  score : Nat
deriving DecidableEq, Repr

/-! ## OSM elements (input of `mapOSMToFacility`, src/mockData.ts) -/

inductive OSMElemType where
  | node : OSMElemType
  | way : OSMElemType
  | relation : OSMElemType
deriving DecidableEq, Repr

/-- The OSM tags that `mapOSMToFacility` reads; each is possibly missing. -/
structure OSMTags where
  name : Option String
  amenity : Option String
  healthcare : Option String
  operator : Option String
  phone : Option String
  contactPhone : Option String
  addrFull : Option String
  addrStreet : Option String
  addrCity : Option String
  addrPostcode : Option String
  addrState : Option String
deriving DecidableEq, Repr

structure OSMCenter where
  lat : Option ℚ
  lon : Option ℚ
deriving DecidableEq, Repr

structure OSMElement where
  type : OSMElemType
  id : Option Int
  lat : Option ℚ
  lon : Option ℚ
  center : Option OSMCenter
  tags : Option OSMTags
  timestamp : Option String
deriving DecidableEq, Repr

/-- Read a tag through the optional `tags` object (`element.tags?.x`). -/
def tagOf (e : OSMElement) (f : OSMTags → Option String) : Option String :=
  match e.tags with
  | some t => f t
  | none => none

/-- Coordinate extraction of `mapOSMToFacility`: nodes use `lat`/`lon`,
ways and relations use `center` when present, else `{lat: 0, lng: 0}`. -/
def osmLocation (e : OSMElement) : Coordinates :=
  match e.type with
  | OSMElemType.node => ⟨parseFloatOpt e.lat, parseFloatOpt e.lon⟩
  | _ =>
    match e.center with
    | some c => ⟨parseFloatOpt c.lat, parseFloatOpt c.lon⟩
    | none => ⟨JNum.val 0, JNum.val 0⟩

/-- Facility-type determination of `mapOSMToFacility`: hospital tags win,
clinic/health_centre tags select clinic, default is clinic. -/
def osmFacilityType (e : OSMElement) : FacilityType :=
  let amenity := (tagOf e OSMTags.amenity).map String.toLower
  let healthcare := (tagOf e OSMTags.healthcare).map String.toLower
  if amenity = some "hospital" ∨ healthcare = some "hospital" then
    FacilityType.HOSPITAL
  else if amenity = some "clinic" ∨ healthcare = some "clinic" ∨
      healthcare = some "health_centre" then
    FacilityType.CLINIC
  else
    FacilityType.CLINIC

/-- The uncapped tag-completeness score of `mapOSMToFacility`:
25 for a name, 20 for an amenity or healthcare tag, 15 for an operator,
10 for a phone, 15 for an address, 15 for nonzero coordinates. -/
def qualityScore (e : OSMElement) : Nat :=
  (if truthyStr (tagOf e OSMTags.name) then 25 else 0) +
  (if truthyStr (tagOf e OSMTags.amenity) ∨ truthyStr (tagOf e OSMTags.healthcare)
    then 20 else 0) +
  (if truthyStr (tagOf e OSMTags.operator) then 15 else 0) +
  (if truthyStr (tagOf e OSMTags.phone) ∨ truthyStr (tagOf e OSMTags.contactPhone)
    then 10 else 0) +
  (if truthyStr (tagOf e OSMTags.addrFull) ∨ truthyStr (tagOf e OSMTags.addrStreet)
    then 15 else 0) +
  (if !jIsZero (osmLocation e).lat ∧ !jIsZero (osmLocation e).lng then 15 else 0)

/-- Decimal rendering of a coordinate for the address fallback
(`location.lat.toFixed(4)`); the exact rounding of JS `toFixed` is
approximated by round-to-nearest. -/
def toFixed4 : JNum → String
  | JNum.nan => "NaN"
  | JNum.val q => toString (round (q * 10000) : ℤ)

/-- Address assembly of `mapOSMToFacility`: `addr:full`, else the joined
street/city/postcode/state parts, else the formatted coordinates. -/
def osmAddress (e : OSMElement) (loc : Coordinates) : String :=
  match tagOf e OSMTags.addrFull with
  | some s =>
    if s.isEmpty then osmAddressParts e loc else s
  | none => osmAddressParts e loc
where
  osmAddressParts (e : OSMElement) (loc : Coordinates) : String :=
    let parts :=
      (match tagOf e OSMTags.addrStreet with | some s => [s] | none => []) ++
      (match tagOf e OSMTags.addrCity with | some s => [s] | none => []) ++
      (match tagOf e OSMTags.addrPostcode with | some s => [s] | none => []) ++
      (match tagOf e OSMTags.addrState with | some s => [s] | none => [])
    let joined := String.intercalate ", " parts
    if joined.isEmpty then toFixed4 loc.lat ++ ", " ++ toFixed4 loc.lng
    else joined

/-- Date-only part of an ISO timestamp (`toISOString().split('T')[0]`);
`Date` normalisation is not modelled, the embedding keeps the textual date. -/
def dateOnly (ts : String) : String :=
  match (ts.splitOn "T").head? with
  | some d => d
  | none => ts

/-- Embedding of `mapOSMToFacility` from src/mockData.ts.  `today` is the
current date string that the impure TS code obtains from `new Date()`. -/
def mapOSMToFacility (today : String) (e : OSMElement) : Facility :=
  let loc := osmLocation e
  { id :=
      match e.id with
      | some i => toString i
      | none =>
        (match e.type with
         | OSMElemType.node => "node"
         | OSMElemType.way => "way"
         | OSMElemType.relation => "relation") ++ "-undefined"
    name := strOrDefault (tagOf e OSMTags.name) "Unnamed Facility"
    type := osmFacilityType e
    location := loc
    address := osmAddress e loc
    contact := strOrDefault (orTruthy (tagOf e OSMTags.phone) (tagOf e OSMTags.contactPhone)) ""
    lastUpdated :=
      match e.timestamp with
      | some ts => dateOnly ts
      | none => today
    isDuplicate := false
    score := min (qualityScore e) 100 }

/-! ## `facilitiesApi.getAll` — direct Overpass path (src/mockData.ts)

The network response is embedded as data: either an Overpass payload in one
of the three shapes the code recognises, or a fetch error.  The claim
concerns the direct-query path (`USE_BACKEND_PROXY` false). -/

/-- The response shapes `getAll` distinguishes: an object with an `elements`
array (possibly with a `remark`), a bare array, an object with consecutive
numeric keys `"0","1",…`, or anything else. -/
inductive OverpassData where
  | elementsObj : Option String → List OSMElement → OverpassData
  | directArray : List OSMElement → OverpassData
  | arrayLikeObj : List OSMElement → OverpassData
  | other : OverpassData

/-- The element extraction of `getAll`: the three recognised shapes yield
their element list, anything else leaves `elements` empty. -/
def extractElements : OverpassData → List OSMElement
  | OverpassData.elementsObj _ es => es
  | OverpassData.directArray es => es
  | OverpassData.arrayLikeObj es => es
  | OverpassData.other => []

/-- The error classification of `getAll`'s catch block: a cancelled request
(`CanceledError` / `ERR_CANCELED` / aborted signal), a timeout
(`ECONNABORTED`), or any other error with its message. -/
inductive FetchError where
  | canceled : FetchError
  | timedOut : FetchError
  | other : String → FetchError

/-- Embedding of `facilitiesApi.getAll` (direct Overpass path): map the extracted elements
through `mapOSMToFacility`, keep only hospitals and clinics, keep only
facilities whose coordinates both pass `!== 0`; a cancelled request returns
`[]`, other errors are rethrown with a message. -/
def getAllDirect (today : String) (resp : Except FetchError OverpassData) :
    Except String (List Facility) :=
  match resp with
  | Except.ok data =>
    let elements := extractElements data
    if elements.length > 0 then
      Except.ok
        (((elements.map (mapOSMToFacility today)).filter
            (fun f => f.type == FacilityType.HOSPITAL || f.type == FacilityType.CLINIC)).filter
          (fun f => !jIsZero f.location.lat && !jIsZero f.location.lng))
    else
      Except.ok []
  | Except.error e =>
    match e with
    | FetchError.canceled => Except.ok []
    | FetchError.timedOut =>
      Except.error "Request timeout. The Overpass API may be slow. Please try again."
    | FetchError.other msg => Except.error ("Failed to fetch facilities: " ++ msg)

/-! ## `loadFacilities` retry loop (src/unnamed/part_001, RegistryTable)

When the initial `getAll` returns an empty list, the component retries up to
`maxRetries` times, sleeping `min(2000 · 2^(k-1), 8000)` ms before retry `k`,
and stops at the first non-empty result.  A retry call is embedded as a
function from the attempt number to its outcome; a thrown error continues to
the next attempt, and a fired cancellation guard ends the procedure. -/

inductive FetchOutcome where
  | ok : List Facility → FetchOutcome
  | err : FetchOutcome
  | canceled : FetchOutcome

inductive RetryResult where
  | found : List Facility → RetryResult
  | exhausted : RetryResult
  | aborted : RetryResult
deriving DecidableEq

def maxRetries : Nat := 3

/-- The backoff delay before retry `k`: `Math.min(2000 * Math.pow(2, k - 1), 8000)`. -/
def backoffDelay (k : Nat) : Nat := min (2000 * 2 ^ (k - 1)) 8000

/-- One pass of the retry `for` loop: `k` is the attempt number, `rem` the
attempts remaining.  Returns the list of delays slept and the outcome. -/
def retryEmptyAux (fetch : Nat → FetchOutcome) : Nat → Nat → List Nat × RetryResult
  | _, 0 => ([], RetryResult.exhausted)
  | k, rem + 1 =>
    match fetch k with
    | FetchOutcome.ok fs =>
      if fs.isEmpty then
        let r := retryEmptyAux fetch (k + 1) rem
        (backoffDelay k :: r.1, r.2)
      else ([backoffDelay k], RetryResult.found fs)
    | FetchOutcome.err =>
      let r := retryEmptyAux fetch (k + 1) rem
      (backoffDelay k :: r.1, r.2)
    | FetchOutcome.canceled => ([backoffDelay k], RetryResult.aborted)

/-- The retry loop of `loadFacilities` after an initial empty result:
attempts numbered `1..maxRetries`. -/
def retryEmpty (fetch : Nat → FetchOutcome) : List Nat × RetryResult :=
  retryEmptyAux fetch 1 maxRetries

/-- An outcome counts as a success for the loop exactly when it is a
non-empty facility list. -/
def nonEmptyOk (o : FetchOutcome) : Prop :=
  ∃ fs, o = FetchOutcome.ok fs ∧ fs ≠ []

/-- Embedding of `loadFacilities` after the initial fetch: a non-empty initial result is
stored directly; an empty one triggers the retry loop, falling back to the
existing facilities (or `[]`) when every retry stays empty.  Returns the
delays slept and the final facilities state. -/
def loadFacilitiesModel (first : FetchOutcome) (fetch : Nat → FetchOutcome)
    (existing : List Facility) : List Nat × List Facility :=
  match first with
  | FetchOutcome.ok data =>
    if data.isEmpty then
      match retryEmpty fetch with
      | (ds, RetryResult.found fs) => (ds, fs)
      | (ds, RetryResult.exhausted) => (ds, if existing.isEmpty then [] else existing)
      | (ds, RetryResult.aborted) => (ds, existing)
    else ([], data)
  | FetchOutcome.err => ([], existing)
  | FetchOutcome.canceled => ([], existing)

/-! ## Backend pipeline

The backend implementation files (`backend/app/services/source_gate.py`, the
tier scrapers, the version tracker and the ETL orchestrator) are part of the
repository but absent from the source tree; only the testing guide documents
them.  The definitions below are therefore modelled from the specification. -/

/-! ### Source Gate (spec §4.1) -/

inductive GateReason where
  | untrusted_domain : GateReason
  | insecure_scheme : GateReason
  | malformed_url : GateReason
deriving DecidableEq, Repr

inductive GateResult where
  | Allowed : GateResult
  | Rejected : GateReason → GateResult
deriving DecidableEq, Repr

/-- Modelled from the spec: a parsed absolute URL, reduced to the fields the
gate inspects — the transport scheme and the registrable domain.  A URL that
fails to parse as absolute is represented by `none` at the call site. -/
structure ParsedUrl where
  scheme : String
  host : String
deriving DecidableEq, Repr

/-- ASCII lowercasing, character by character. -/
def lowerStr (s : String) : String := String.mk (s.data.map Char.toLower)

/-- Suffix test on the character sequences of two strings. -/
def strEndsWith (s p : String) : Bool := List.isPrefixOf p.data.reverse s.data.reverse

/-- Modelled from the spec: case-insensitive allow-list comparison — exact
match or subdomain of an allow-listed domain, no other wildcard matching. -/
def domainMatches (host allowed : String) : Bool :=
  lowerStr host == lowerStr allowed ||
    strEndsWith (lowerStr host) ("." ++ lowerStr allowed)

/-- Modelled from the spec: `authorize(url) → Allowed | Rejected(reason)`
(§4.1) over the static allow-list configuration.  A malformed/non-absolute
URL is rejected as `malformed_url`, a non-HTTPS scheme as `insecure_scheme`,
a domain not on the allow-list as `untrusted_domain`. -/
def authorize (allowList : List String) (url : Option ParsedUrl) : GateResult :=
  match url with
  | none => GateResult.Rejected GateReason.malformed_url
  | some u =>
    if lowerStr u.scheme ≠ "https" then
      GateResult.Rejected GateReason.insecure_scheme
    else if allowList.any (fun a => domainMatches u.host a) then
      GateResult.Allowed
    else
      GateResult.Rejected GateReason.untrusted_domain

/-! ### Tier scrapers and Tier Dispatcher (spec §4.2–4.3) -/

inductive FailKind where
  | network_error : FailKind
  | parse_error : FailKind
  | empty_result : FailKind
  | timedOut : FailKind
  | disabled : FailKind
deriving DecidableEq, Repr

inductive TierOutcome where
  | extracted : TierOutcome
  | failure : FailKind → TierOutcome
deriving DecidableEq, Repr

/-- Modelled from the spec: invoking Tier 5 (§4.2).  The second component of
a result counts the network calls the invocation issued; `session` is what a
browser session would produce were automation enabled.  When the
automation-enable flag is unset the invocation fails immediately with
`disabled` and issues zero network calls. -/
def tier5Extract (automationEnabled : Bool) (session : TierOutcome × Nat) :
    TierOutcome × Nat :=
  if automationEnabled then session else (TierOutcome.failure FailKind.disabled, 0)

inductive DispatchResult where
  | success : Nat → DispatchResult
  | failed : DispatchResult
deriving DecidableEq, Repr

/-- Modelled from the spec: the ascending fallback chain of the Tier
Dispatcher (§4.3).  `behave t` tells whether tier `t` succeeds when
attempted; `fuel` is the number of tiers still permitted.  Returns the
attempted tiers in order and the first succeeding tier, if any. -/
def chainFrom (behave : Nat → Bool) : Nat → Nat → List Nat × Option Nat
  | _, 0 => ([], none)
  | t, fuel + 1 =>
    if behave t then ([t], some t)
    else
      let r := chainFrom behave (t + 1) fuel
      (t :: r.1, r.2)

/-- Modelled from the spec: the Tier Dispatcher (§4.3).  With an override
tier only that tier is attempted and its failure is terminal; otherwise
tiers are attempted in ascending order from the dataset's assigned tier up
to Tier 4, or Tier 5 when the automation-enable flag is set. -/
def dispatch (automationEnabled : Bool) (override : Option Nat)
    (behave : Nat → Bool) (startTier : Nat) : List Nat × DispatchResult :=
  match override with
  | some t =>
    ([t], if behave t then DispatchResult.success t else DispatchResult.failed)
  | none =>
    let maxTier := if automationEnabled then 5 else 4
    let r := chainFrom behave startTier (maxTier + 1 - startTier)
    (r.1,
      match r.2 with
      | some t => DispatchResult.success t
      | none => DispatchResult.failed)

/-- Modelled from the spec: the tier-used feedback of §4.3 — the stored
`scraping_tier` estimate is lowered to a succeeding tier that is safer
(lower-numbered) than the current estimate and is never raised. -/
def updateTierEstimate (current succeeded : Nat) : Nat :=
  if succeeded < current then succeeded else current

/-! ### Version Tracker (spec §4.4) -/

structure DatasetVersion where
  version_number : Nat
  content_hash : Nat
  schema_fingerprint : Nat
  record_count : Nat
deriving DecidableEq, Repr

inductive VersionOutcome where
  | New : DatasetVersion → VersionOutcome
  | Unchanged : DatasetVersion → VersionOutcome
deriving DecidableEq, Repr

/-- Modelled from the spec: the Version Tracker's `record` operation (§4.4,
§4.5).  `hist` is the stored version sequence of the dataset in creation
order; `ch`/`sf` are the computed content hash and schema fingerprint, `rc`
the record count.  A new version is appended only when either digest differs
from the immediately preceding version (or none exists); the `force` flag
affects reporting only, never storage, so it is ignored here. -/
def recordVersion (force : Bool) (hist : List DatasetVersion) (ch sf rc : Nat) :
    VersionOutcome × List DatasetVersion :=
  match hist.getLast? with
  | some prev =>
    if prev.content_hash = ch ∧ prev.schema_fingerprint = sf then
      (VersionOutcome.Unchanged prev, hist)
    else
      let v : DatasetVersion := ⟨prev.version_number + 1, ch, sf, rc⟩
      (VersionOutcome.New v, hist ++ [v])
  | none =>
    let v : DatasetVersion := ⟨1, ch, sf, rc⟩
    (VersionOutcome.New v, hist ++ [v])

/-- The version-sequence invariant: the stored version numbers are exactly
`1, 2, …, hist.length` in order. -/
def versionsWellFormed (hist : List DatasetVersion) : Prop :=
  hist.map DatasetVersion.version_number = List.range' 1 hist.length

/-! ### ETL job state machine (spec §4.5; `PipelineStatus` from
src/unnamed/part_005) -/

structure ETLJob where
  id : String
  source : String
  status : PipelineStatus
  recordsProcessed : Nat
  startTime : String
  errors : Nat
deriving DecidableEq, Repr

def statusRank : PipelineStatus → Nat
  | PipelineStatus.PENDING => 0
  | PipelineStatus.PROCESSING => 1
  | PipelineStatus.COMPLETED => 2
  | PipelineStatus.FAILED => 2

def isTerminal (s : PipelineStatus) : Bool :=
  s == PipelineStatus.COMPLETED || s == PipelineStatus.FAILED

/-- Modelled from the spec: the transitions of the ETL job state machine
(§4.5).  Pending jobs may only start; counters are written only while
Processing; Processing ends in Completed or Failed. -/
inductive JobStep : ETLJob → ETLJob → Prop where
  | start (j : ETLJob) (h : j.status = PipelineStatus.PENDING) :
      JobStep j { j with status := PipelineStatus.PROCESSING }
  | work (j : ETLJob) (h : j.status = PipelineStatus.PROCESSING) (r e : Nat) :
      JobStep j { j with recordsProcessed := r, errors := e }
  | complete (j : ETLJob) (h : j.status = PipelineStatus.PROCESSING) :
      JobStep j { j with status := PipelineStatus.COMPLETED }
  | fail (j : ETLJob) (h : j.status = PipelineStatus.PROCESSING) :
      JobStep j { j with status := PipelineStatus.FAILED }

/-! ### Orchestrator concurrency rule (spec §5) -/

structure OrchJob where
  dataset : String
  status : PipelineStatus
deriving DecidableEq, Repr

/-- Modelled from the spec: the operations the orchestrator serialises per
dataset — a scrape request for a dataset, and the completion (successful or
not) of the job at a given position of the job table. -/
inductive OrchOp where
  | request : String → OrchOp
  | finish : Nat → Bool → OrchOp

def isProcFor (d : String) (j : OrchJob) : Bool :=
  j.dataset == d && j.status == PipelineStatus.PROCESSING

def hasProcessing (jobs : List OrchJob) (d : String) : Bool :=
  jobs.any (isProcFor d)

def procCount (jobs : List OrchJob) (d : String) : Nat :=
  jobs.countP (isProcFor d)

/-- Modelled from the spec: atomic handling of one orchestrator operation
(§5).  A request for a dataset with an in-flight Processing job is rejected
(`ConcurrentJobInProgress`) and leaves the job table unchanged; otherwise a
Processing job is admitted.  Finishing moves a Processing job to a terminal
state. -/
def applyOp (jobs : List OrchJob) : OrchOp → List OrchJob
  | OrchOp.request d =>
    if hasProcessing jobs d then jobs
    else { dataset := d, status := PipelineStatus.PROCESSING } :: jobs
  | OrchOp.finish i ok =>
    match jobs.get? i with
    | some j =>
      if j.status == PipelineStatus.PROCESSING then
        jobs.set i { j with status :=
          if ok then PipelineStatus.COMPLETED else PipelineStatus.FAILED }
      else jobs
    | none => jobs

/-! ## Theorems -/

lemma qualityScore_le (e : OSMElement) : qualityScore e ≤ 100 := by
  unfold qualityScore
  split_ifs <;> omega

/-- Claim C9: for every OSM element, `mapOSMToFacility` returns a facility
whose quality score is an integer between 0 and 100 inclusive — the capped
sum of the non-negative tag-completeness bonuses computed by
`qualityScore`. -/
theorem c9_osm_quality_score_bounds :
    ∀ (today : String) (e : OSMElement),
      (mapOSMToFacility today e).score = min (qualityScore e) 100 ∧
      (mapOSMToFacility today e).score ≤ 100 ∧
      qualityScore e ≤ 100 := by
  intro today e
  refine ⟨rfl, ?_, qualityScore_le e⟩
  rw [show (mapOSMToFacility today e).score = min (qualityScore e) 100 from rfl]
  exact Nat.min_le_right _ _

/-- Claim C6: the dataset's stored `scraping_tier` estimate is updated to the
succeeding tier only when it is lower-numbered than the current estimate —
the update computes `min` and never increases the estimate. -/
theorem c6_tier_estimate_min :
    ∀ (e t : Nat),
      updateTierEstimate e t = min e t ∧ updateTierEstimate e t ≤ e := by
  intro e t
  unfold updateTierEstimate
  constructor <;> split <;> omega

/-- Claim C5: every ETL job status is one of exactly Pending, Processing,
Completed, Failed; steps are monotone in the status order, terminal states
admit no further step, and the counters are written only while the job is
Processing. -/
theorem c5_etl_status_machine :
    (∀ s : PipelineStatus,
      s = PipelineStatus.PENDING ∨ s = PipelineStatus.PROCESSING ∨
      s = PipelineStatus.COMPLETED ∨ s = PipelineStatus.FAILED) ∧
    (∀ j j' : ETLJob, JobStep j j' → statusRank j.status ≤ statusRank j'.status) ∧
    (∀ j j' : ETLJob, isTerminal j.status = true → ¬ JobStep j j') ∧
    (∀ j j' : ETLJob, JobStep j j' →
      (j'.recordsProcessed ≠ j.recordsProcessed ∨ j'.errors ≠ j.errors) →
      j.status = PipelineStatus.PROCESSING) := by
  refine ⟨?_, ?_, ?_, ?_⟩
  · intro s; cases s <;> simp
  · intro j j' hs
    cases hs with
    | start h => simp [h, statusRank]
    | work h r e => simp [statusRank]
    | complete h => simp [h, statusRank]
    | fail h => simp [h, statusRank]
  · intro j j' ht hs
    cases hs with
    | start h => rw [h] at ht; simp [isTerminal] at ht
    | work h r e => rw [h] at ht; simp [isTerminal] at ht
    | complete h => rw [h] at ht; simp [isTerminal] at ht
    | fail h => rw [h] at ht; simp [isTerminal] at ht
  · intro j j' hs hne
    cases hs with
    | start h => simp at hne
    | work h r e => exact h
    | complete h => simp at hne
    | fail h => simp at hne

def etlJob0 : ETLJob :=
  ⟨"job-1", "dosm", PipelineStatus.PENDING, 0, "2024-01-01T00:00:00Z", 0⟩

theorem c5_etl_status_machine_witness :
    statusRank etlJob0.status ≤
      statusRank ({ etlJob0 with status := PipelineStatus.PROCESSING } : ETLJob).status := by
  exact c5_etl_status_machine.2.1 etlJob0
    { etlJob0 with status := PipelineStatus.PROCESSING }
    (JobStep.start etlJob0 rfl)

/-- Claim C3: the Source Gate's `authorize` returns `Allowed` exactly when
the URL parses as absolute, uses HTTPS, and its domain matches an
allow-listed domain case-insensitively, exactly or as a subdomain; every
other outcome is a rejection carrying one of the three reason codes. -/
theorem c3_source_gate_allowed_iff :
    ∀ (allowList : List String) (url : Option ParsedUrl),
      (authorize allowList url = GateResult.Allowed ↔
        ∃ u, url = some u ∧ lowerStr u.scheme = "https" ∧
          ∃ a ∈ allowList,
            lowerStr u.host = lowerStr a ∨
              strEndsWith (lowerStr u.host) ("." ++ lowerStr a) = true) ∧
      (authorize allowList url = GateResult.Allowed ∨
        authorize allowList url = GateResult.Rejected GateReason.malformed_url ∨
        authorize allowList url = GateResult.Rejected GateReason.insecure_scheme ∨
        authorize allowList url = GateResult.Rejected GateReason.untrusted_domain) := by
  intro allowList url
  match url with
  | none =>
    constructor
    · simp [authorize]
    · right; left; rfl
  | some u =>
    by_cases hs : lowerStr u.scheme = "https"
    · by_cases ha : allowList.any (fun a => domainMatches u.host a)
      · constructor
        · simp only [authorize, hs, ha]
          simp only [List.any_eq_true, domainMatches, Bool.or_eq_true, beq_iff_eq] at ha
          simp only [ne_eq, not_true_eq_false, if_false, if_true, true_iff]
          exact ⟨u, rfl, hs, ha⟩
        · left; simp [authorize, hs, ha]
      · constructor
        · simp only [authorize, hs, ne_eq, not_true_eq_false, if_false]
          rw [if_neg ha]
          constructor
          · intro h; cases h
          · rintro ⟨u', hu, hsch, a, hmem, hmatch⟩
            cases hu
            exact absurd (List.any_eq_true.mpr
              ⟨a, hmem, by simpa [domainMatches, Bool.or_eq_true, beq_iff_eq] using hmatch⟩) ha
        · right; right; right; simp [authorize, hs, ha]
    · constructor
      · simp only [authorize, hs, ne_eq, not_false_eq_true, if_true]
        constructor
        · intro h; cases h
        · rintro ⟨u', hu, hsch, _⟩
          cases hu
          exact absurd hsch hs
      · right; right; left; simp [authorize, hs]

theorem c3_source_gate_allowed_iff_witness :
    authorize ["data.gov.my"] (some ⟨"https", "www.data.gov.my"⟩) =
      GateResult.Allowed := by
  have h := (c3_source_gate_allowed_iff ["data.gov.my"]
    (some ⟨"https", "www.data.gov.my"⟩)).1
  exact h.mpr ⟨⟨"https", "www.data.gov.my"⟩, rfl, by decide,
    "data.gov.my", by simp, Or.inr (by decide)⟩

/-- Claim C10: every facility returned by the direct-Overpass `getAll` has
type Hospital or Clinic and coordinates that both pass the `!== 0` filter,
and a cancelled request yields the empty list instead of an error. -/
theorem c10_getall_filter_and_cancel :
    (∀ today, getAllDirect today (Except.error FetchError.canceled) =
      Except.ok []) ∧
    (∀ today resp fs, getAllDirect today resp = Except.ok fs →
      ∀ f ∈ fs,
        (f.type = FacilityType.HOSPITAL ∨ f.type = FacilityType.CLINIC) ∧
        f.location.lat ≠ JNum.val 0 ∧ f.location.lng ≠ JNum.val 0) := by
  constructor
  · intro today; rfl
  · intro today resp fs h f hf
    match resp with
    | Except.error FetchError.canceled =>
      simp only [getAllDirect] at h
      cases h
      simp at hf
    | Except.error FetchError.timedOut => simp [getAllDirect] at h
    | Except.error (FetchError.other msg) => simp [getAllDirect] at h
    | Except.ok data =>
      simp only [getAllDirect] at h
      split at h
      · cases h
        rw [List.mem_filter] at hf
        obtain ⟨hf1, hf2⟩ := hf
        rw [Bool.and_eq_true, Bool.not_eq_eq_eq_not, Bool.not_eq_eq_eq_not] at hf2
        refine ⟨?_, ?_, ?_⟩
        · cases ht : f.type
          · left; rfl
          · right; rfl
        · intro hc
          have := hf2.1
          rw [hc] at this
          simp [jIsZero] at this
        · intro hc
          have := hf2.2
          rw [hc] at this
          simp [jIsZero] at this
      · cases h
        simp at hf

def osmWitnessElem : OSMElement :=
  { type := OSMElemType.node, id := some 1, lat := some 3, lon := some 101,
    center := none,
    tags := some
      { name := some "Klinik Satu", amenity := none, healthcare := none,
        operator := none, phone := none, contactPhone := none,
        addrFull := some "Jalan Satu", addrStreet := none, addrCity := none,
        addrPostcode := none, addrState := none },
    timestamp := some "2024-01-01T00:00:00Z" }

theorem c10_getall_filter_and_cancel_witness :
    getAllDirect "2024-02-02" (Except.error FetchError.canceled) = Except.ok [] ∧
    ((mapOSMToFacility "2024-02-02" osmWitnessElem).type = FacilityType.HOSPITAL ∨
      (mapOSMToFacility "2024-02-02" osmWitnessElem).type = FacilityType.CLINIC) ∧
    (mapOSMToFacility "2024-02-02" osmWitnessElem).location.lat ≠ JNum.val 0 ∧
    (mapOSMToFacility "2024-02-02" osmWitnessElem).location.lng ≠ JNum.val 0 := by
  refine ⟨c10_getall_filter_and_cancel.1 "2024-02-02", ?_⟩
  exact c10_getall_filter_and_cancel.2 "2024-02-02"
    (Except.ok (OverpassData.directArray [osmWitnessElem]))
    [mapOSMToFacility "2024-02-02" osmWitnessElem] rfl
    (mapOSMToFacility "2024-02-02" osmWitnessElem) (by simp)

/-! ### Retry loop lemmas (C8) -/

lemma retryEmptyAux_length_le (fetch : Nat → FetchOutcome) :
    ∀ rem k, (retryEmptyAux fetch k rem).1.length ≤ rem := by
  intro rem
  induction rem with
  | zero => intro k; simp [retryEmptyAux]
  | succ n ih =>
    intro k
    unfold retryEmptyAux
    cases h : fetch k with
    | ok fs =>
      by_cases he : fs.isEmpty
      · simp only [he, if_true, List.length_cons]
        exact Nat.succ_le_succ (ih (k + 1))
      · simp [he]
    | err =>
      simp only [List.length_cons]
      exact Nat.succ_le_succ (ih (k + 1))
    | canceled => simp

lemma retryEmptyAux_delays (fetch : Nat → FetchOutcome) :
    ∀ rem k, (retryEmptyAux fetch k rem).1 =
      (List.range' k (retryEmptyAux fetch k rem).1.length).map backoffDelay := by
  intro rem
  induction rem with
  | zero => intro k; simp [retryEmptyAux]
  | succ n ih =>
    intro k
    unfold retryEmptyAux
    cases h : fetch k with
    | ok fs =>
      by_cases he : fs.isEmpty
      · simp only [he, if_true, List.length_cons, List.range'_succ, List.map_cons,
          List.map_map]
        exact congrArg (backoffDelay k :: ·) (ih (k + 1))
      · simp [he, List.range'_succ]
    | err =>
      simp only [List.length_cons, List.range'_succ, List.map_cons]
      exact congrArg (backoffDelay k :: ·) (ih (k + 1))
    | canceled => simp [List.range'_succ]

lemma retryEmptyAux_found (fetch : Nat → FetchOutcome) :
    ∀ rem k fs, (retryEmptyAux fetch k rem).2 = RetryResult.found fs →
      fs ≠ [] ∧
      ∃ n, (retryEmptyAux fetch k rem).1.length = n + 1 ∧
        fetch (k + n) = FetchOutcome.ok fs ∧
        ∀ j, k ≤ j → j < k + n → ¬ nonEmptyOk (fetch j) := by
  intro rem
  induction rem with
  | zero => intro k fs h; simp [retryEmptyAux] at h
  | succ n ih =>
    intro k fs h
    cases hk : fetch k with
    | ok fs' =>
      simp only [retryEmptyAux, hk] at h
      by_cases he : fs'.isEmpty
      · rw [if_pos he] at h
        obtain ⟨hne, m, hlen, hfetch, hbefore⟩ := ih (k + 1) fs h
        refine ⟨hne, m + 1, ?_, ?_, ?_⟩
        · simp only [retryEmptyAux, hk, he, if_true, List.length_cons, hlen]
        · rw [show k + (m + 1) = k + 1 + m by omega]; exact hfetch
        · intro j hj1 hj2
          rcases Nat.eq_or_lt_of_le hj1 with hj | hj
          · subst hj
            rw [hk]
            rintro ⟨fs'', heq, hne''⟩
            cases heq
            exact hne'' (List.isEmpty_iff.mp he)
          · exact hbefore j hj (by omega)
      · rw [if_neg he] at h
        cases h
        refine ⟨fun hc => he (by simp [hc]), 0, ?_, ?_, ?_⟩
        · simp [retryEmptyAux, hk, he]
        · simpa using hk
        · intro j hj1 hj2; omega
    | err =>
      simp only [retryEmptyAux, hk] at h
      obtain ⟨hne, m, hlen, hfetch, hbefore⟩ := ih (k + 1) fs h
      refine ⟨hne, m + 1, ?_, ?_, ?_⟩
      · simp only [retryEmptyAux, hk, List.length_cons, hlen]
      · rw [show k + (m + 1) = k + 1 + m by omega]; exact hfetch
      · intro j hj1 hj2
        rcases Nat.eq_or_lt_of_le hj1 with hj | hj
        · subst hj
          rw [hk]
          rintro ⟨fs'', heq, _⟩
          cases heq
        · exact hbefore j hj (by omega)
    | canceled =>
      simp only [retryEmptyAux, hk] at h
      cases h

/-- Claim C8: the retry for transient empty reads is bounded exponential
backoff — at most `maxRetries = 3` further attempts, the delay before retry
`k` is `min(2000 · 2^(k-1), 8000)` (2 s, 4 s, 8 s), and the loop stops at
the first non-empty result, which is what it returns. -/
theorem c8_retry_backoff_bounded :
    ∀ fetch : Nat → FetchOutcome,
      backoffDelay 1 = 2000 ∧ backoffDelay 2 = 4000 ∧ backoffDelay 3 = 8000 ∧
      (retryEmpty fetch).1.length ≤ maxRetries ∧
      (retryEmpty fetch).1 =
        (List.range' 1 (retryEmpty fetch).1.length).map backoffDelay ∧
      (∀ fs, (retryEmpty fetch).2 = RetryResult.found fs →
        fs ≠ [] ∧
        fetch ((retryEmpty fetch).1.length) = FetchOutcome.ok fs ∧
        ∀ j, 1 ≤ j → j < (retryEmpty fetch).1.length → ¬ nonEmptyOk (fetch j)) := by
  intro fetch
  refine ⟨by decide, by decide, by decide,
    retryEmptyAux_length_le fetch maxRetries 1,
    retryEmptyAux_delays fetch maxRetries 1, ?_⟩
  intro fs h
  obtain ⟨hne, m, hlen, hfetch, hbefore⟩ :=
    retryEmptyAux_found fetch maxRetries 1 fs h
  have hl : (retryEmpty fetch).1.length = 1 + m := by
    unfold retryEmpty
    omega
  refine ⟨hne, ?_, ?_⟩
  · rw [hl]; exact hfetch
  · intro j hj1 hj2
    rw [hl] at hj2
    exact hbefore j hj1 hj2

def facility0 : Facility :=
  ⟨"1", "Klinik", FacilityType.CLINIC, ⟨JNum.val 3, JNum.val 101⟩,
    "Jalan Satu", "", "2024-01-01", false, 50⟩

def fetch0 : Nat → FetchOutcome :=
  fun k => if k = 2 then FetchOutcome.ok [facility0] else FetchOutcome.ok []

theorem c8_retry_backoff_bounded_witness :
    [facility0] ≠ [] ∧
    fetch0 ((retryEmpty fetch0).1.length) = FetchOutcome.ok [facility0] := by
  have h := (c8_retry_backoff_bounded fetch0).2.2.2.2.2 [facility0] rfl
  exact ⟨h.1, h.2.1⟩

/-! ### Dispatcher chain lemmas (C2, C4) -/

lemma chainFrom_fst (behave : Nat → Bool) :
    ∀ fuel t, (chainFrom behave t fuel).1 =
        List.range' t (chainFrom behave t fuel).1.length ∧
      (chainFrom behave t fuel).1.length ≤ fuel := by
  intro fuel
  induction fuel with
  | zero => intro t; simp [chainFrom]
  | succ n ih =>
    intro t
    unfold chainFrom
    by_cases hb : behave t
    · simp [hb, List.range'_succ]
    · obtain ⟨h1, h2⟩ := ih (t + 1)
      simp only [hb, if_false, List.length_cons, List.range'_succ]
      exact ⟨congrArg (t :: ·) h1, Nat.succ_le_succ h2⟩

lemma chainFrom_success (behave : Nat → Bool) :
    ∀ fuel t r, (chainFrom behave t fuel).2 = some r →
      behave r = true ∧ t ≤ r ∧ r < t + fuel ∧
      (chainFrom behave t fuel).1.length = r + 1 - t ∧
      ∀ u, t ≤ u → u < r → behave u = false := by
  intro fuel
  induction fuel with
  | zero => intro t r h; simp [chainFrom] at h
  | succ n ih =>
    intro t r h
    unfold chainFrom at h ⊢
    by_cases hb : behave t
    · rw [if_pos hb] at h
      cases h
      refine ⟨hb, Nat.le_refl t, by omega, ?_, ?_⟩
      · rw [if_pos hb]
        simp only [List.length_cons, List.length_nil]
        omega
      · intro u hu1 hu2; omega
    · rw [if_neg hb] at h
      obtain ⟨h1, h2, h3, h4, h5⟩ := ih (t + 1) r h
      refine ⟨h1, by omega, by omega, ?_, ?_⟩
      · rw [if_neg hb]
        simp only [List.length_cons, h4]
        omega
      · intro u hu1 hu2
        rcases Nat.eq_or_lt_of_le hu1 with hu | hu
        · subst hu; simpa using hb
        · exact h5 u hu hu2

lemma chainFrom_exhaust (behave : Nat → Bool) :
    ∀ fuel t, (chainFrom behave t fuel).2 = none →
      (chainFrom behave t fuel).1.length = fuel ∧
      ∀ u, t ≤ u → u < t + fuel → behave u = false := by
  intro fuel
  induction fuel with
  | zero => intro t _; refine ⟨rfl, ?_⟩; intro u h1 h2; omega
  | succ n ih =>
    intro t h
    unfold chainFrom at h ⊢
    by_cases hb : behave t
    · rw [if_pos hb] at h; cases h
    · rw [if_neg hb] at h
      obtain ⟨h1, h2⟩ := ih (t + 1) h
      refine ⟨by rw [if_neg hb]; simp only [List.length_cons, h1], ?_⟩
      intro u hu1 hu2
      rcases Nat.eq_or_lt_of_le hu1 with hu | hu
      · subst hu; simpa using hb
      · exact h2 u hu (by omega)

/-- Claim C2: with no override the dispatcher attempts consecutive ascending
tiers from the assigned start tier, moves on only upon failure, and stops at
the first success, which becomes `tier_used` (no higher tier is attempted);
with an override only that tier is attempted and its failure is terminal. -/
theorem c2_dispatch_ascending_first_success :
    ∀ (auto : Bool) (behave : Nat → Bool) (start : Nat),
      ((dispatch auto none behave start).1 =
        List.range' start (dispatch auto none behave start).1.length) ∧
      (∀ r, (dispatch auto none behave start).2 = DispatchResult.success r →
        behave r = true ∧ start ≤ r ∧
        (dispatch auto none behave start).1 = List.range' start (r + 1 - start) ∧
        (∀ u, u ∈ (dispatch auto none behave start).1 → u ≤ r) ∧
        (∀ u, start ≤ u → u < r → behave u = false)) ∧
      (∀ t, dispatch auto (some t) behave start =
        ([t], if behave t then DispatchResult.success t else DispatchResult.failed)) := by
  intro auto behave start
  refine ⟨(chainFrom_fst behave _ start).1, ?_, ?_⟩
  · intro r h
    have hsome : (chainFrom behave start ((if auto then 5 else 4) + 1 - start)).2 = some r := by
      simp only [dispatch] at h
      cases hc : (chainFrom behave start ((if auto then 5 else 4) + 1 - start)).2 with
      | none => rw [hc] at h; cases h
      | some t => rw [hc] at h; cases h; rfl
    obtain ⟨h1, h2, h3, h4, h5⟩ := chainFrom_success behave _ start r hsome
    refine ⟨h1, h2, ?_, ?_, h5⟩
    · have := (chainFrom_fst behave ((if auto then 5 else 4) + 1 - start) start).1
      simp only [dispatch]
      rw [this, h4]
    · intro u hu
      simp only [dispatch] at hu
      rw [(chainFrom_fst behave _ start).1, h4] at hu
      rw [List.mem_range'_1] at hu
      omega
  · intro t
    by_cases hb : behave t <;> simp [dispatch, hb]

def behave3 : Nat → Bool := fun t => t == 3

theorem c2_dispatch_ascending_first_success_witness :
    behave3 3 = true ∧ 1 ≤ 3 ∧
    (dispatch true none behave3 1).1 = List.range' 1 (3 + 1 - 1) := by
  have h := (c2_dispatch_ascending_first_success true behave3 1).2.1 3 rfl
  exact ⟨h.1, h.2.1, h.2.2.1⟩

/-- Claim C4: invoking Tier 5 with the automation flag unset fails
immediately with `disabled` and issues zero network calls; with the flag
unset the fallback chain never attempts a tier above 4 and, when every
permitted tier fails, the dispatch result is `failed` (exhausted). -/
theorem c4_tier5_disabled_unreachable :
    (∀ session, tier5Extract false session =
      (TierOutcome.failure FailKind.disabled, 0)) ∧
    (∀ (behave : Nat → Bool) (start : Nat),
      ∀ u ∈ (dispatch false none behave start).1, u ≤ 4) ∧
    (∀ (behave : Nat → Bool) (start : Nat),
      5 ∉ (dispatch false none behave start).1) ∧
    (∀ (behave : Nat → Bool) (start : Nat),
      (∀ u, start ≤ u → u ≤ 4 → behave u = false) →
      (dispatch false none behave start).2 = DispatchResult.failed) := by
  have hmem : ∀ (behave : Nat → Bool) (start : Nat),
      ∀ u ∈ (dispatch false none behave start).1, u ≤ 4 := by
    intro behave start u hu
    have hd : (dispatch false none behave start).1 =
        (chainFrom behave start (4 + 1 - start)).1 := by
      simp [dispatch]
    rw [hd] at hu
    obtain ⟨h1, h2⟩ := chainFrom_fst behave (4 + 1 - start) start
    rw [h1, List.mem_range'_1] at hu
    omega
  refine ⟨fun session => rfl, hmem, ?_, ?_⟩
  · intro behave start h5
    have := hmem behave start 5 h5
    omega
  · intro behave start hfail
    have hd : dispatch false none behave start =
        ((chainFrom behave start (4 + 1 - start)).1,
          match (chainFrom behave start (4 + 1 - start)).2 with
          | some t => DispatchResult.success t
          | none => DispatchResult.failed) := by
      simp [dispatch]
    rw [hd]
    cases hc : (chainFrom behave start (4 + 1 - start)).2 with
    | none => rfl
    | some r =>
      obtain ⟨h1, h2, h3, _, _⟩ := chainFrom_success behave (4 + 1 - start) start r hc
      rw [hfail r h2 (by omega)] at h1
      cases h1

def behaveNever : Nat → Bool := fun _ => false

theorem c4_tier5_disabled_unreachable_witness :
    tier5Extract false (TierOutcome.extracted, 7) =
      (TierOutcome.failure FailKind.disabled, 0) ∧
    (dispatch false none behaveNever 1).2 = DispatchResult.failed := by
  refine ⟨c4_tier5_disabled_unreachable.1 (TierOutcome.extracted, 7), ?_⟩
  exact c4_tier5_disabled_unreachable.2.2.2 behaveNever 1 (fun u _ _ => rfl)

/-! ### Version tracker lemmas (C1) -/

lemma wf_last (hist : List DatasetVersion) (hwf : versionsWellFormed hist)
    (prev : DatasetVersion) (h : hist.getLast? = some prev) :
    prev.version_number = hist.length := by
  rcases List.eq_nil_or_concat hist with hnil | ⟨l, a, hconcat⟩
  · subst hnil; cases h
  · rw [List.concat_eq_append] at hconcat
    subst hconcat
    rw [List.getLast?_concat] at h
    cases h
    unfold versionsWellFormed at hwf
    simp only [List.map_append, List.map_cons, List.map_nil, List.length_append,
      List.length_cons, List.length_nil] at hwf
    rw [List.range'_concat] at hwf
    obtain ⟨-, h2⟩ := List.append_inj hwf (by simp)
    simp only [List.cons.injEq, and_true] at h2
    simp only [List.length_append, List.length_cons, List.length_nil]
    omega

lemma wf_append (hist : List DatasetVersion) (hwf : versionsWellFormed hist)
    (v : DatasetVersion) (hv : v.version_number = hist.length + 1) :
    versionsWellFormed (hist ++ [v]) := by
  unfold versionsWellFormed at hwf ⊢
  simp only [List.map_append, List.map_cons, List.map_nil, List.length_append,
    List.length_cons, List.length_nil]
  rw [List.range'_concat, hwf, hv]
  simp
  omega

/-- Claim C1: the stored version sequence is append-only with version
numbers `1, 2, …` without gaps; `recordVersion` appends a new version
exactly when the content hash or schema fingerprint differs from the last
stored version (or none exists), returns `Unchanged` with no write on a
match, and is unaffected by the `force` flag. -/
theorem c1_version_sequence_append_only :
    ∀ (force : Bool) (hist : List DatasetVersion) (ch sf rc : Nat),
      versionsWellFormed hist →
      versionsWellFormed (recordVersion force hist ch sf rc).2 ∧
      (∃ tail, (recordVersion force hist ch sf rc).2 = hist ++ tail) ∧
      ((recordVersion force hist ch sf rc).2 ≠ hist ↔
        (hist.getLast? = none ∨
          ∃ prev, hist.getLast? = some prev ∧
            ¬(prev.content_hash = ch ∧ prev.schema_fingerprint = sf))) ∧
      (∀ prev, hist.getLast? = some prev →
        prev.content_hash = ch → prev.schema_fingerprint = sf →
        (recordVersion force hist ch sf rc).1 = VersionOutcome.Unchanged prev ∧
        (recordVersion force hist ch sf rc).2 = hist) ∧
      recordVersion true hist ch sf rc = recordVersion false hist ch sf rc := by
  intro force hist ch sf rc hwf
  cases hl : hist.getLast? with
  | none =>
    have hnil : hist = [] := List.getLast?_eq_none_iff.mp hl
    subst hnil
    refine ⟨?_, ⟨[⟨1, ch, sf, rc⟩], rfl⟩, ?_, ?_, rfl⟩
    · show versionsWellFormed ([] ++ [(⟨1, ch, sf, rc⟩ : DatasetVersion)])
      unfold versionsWellFormed
      rfl
    · refine iff_of_true ?_ (Or.inl rfl)
      show ([] : List DatasetVersion) ++ [⟨1, ch, sf, rc⟩] ≠ []
      simp
    · intro prev hp; cases hp
  | some prev =>
    by_cases hmatch : prev.content_hash = ch ∧ prev.schema_fingerprint = sf
    · have hr : recordVersion force hist ch sf rc =
          (VersionOutcome.Unchanged prev, hist) := by
        simp only [recordVersion, hl, if_pos hmatch]
      have hforce : recordVersion true hist ch sf rc =
          recordVersion false hist ch sf rc := rfl
      rw [hr]
      refine ⟨hwf, ⟨[], by simp⟩, ?_, ?_, hforce⟩
      · refine iff_of_false (by simp) ?_
        rintro (hn | ⟨p, hp, hnp⟩)
        · cases hn
        · cases hp; exact hnp hmatch
      · intro p hp h1 h2
        cases hp
        exact ⟨rfl, rfl⟩
    · have hr : recordVersion force hist ch sf rc =
          (VersionOutcome.New ⟨prev.version_number + 1, ch, sf, rc⟩,
            hist ++ [⟨prev.version_number + 1, ch, sf, rc⟩]) := by
        simp only [recordVersion, hl, if_neg hmatch]
      have hforce : recordVersion true hist ch sf rc =
          recordVersion false hist ch sf rc := rfl
      have hvn : prev.version_number = hist.length := wf_last hist hwf prev hl
      rw [hr]
      refine ⟨?_, ⟨[⟨prev.version_number + 1, ch, sf, rc⟩], rfl⟩, ?_, ?_, hforce⟩
      · exact wf_append hist hwf _ (by simp [hvn])
      · exact iff_of_true (by simp) (Or.inr ⟨prev, rfl, hmatch⟩)
      · intro p hp h1 h2
        cases hp
        exact absurd ⟨h1, h2⟩ hmatch

def histW : List DatasetVersion := [⟨1, 5, 7, 10⟩]

theorem c1_version_sequence_append_only_witness :
    (recordVersion true histW 5 7 3).1 = VersionOutcome.Unchanged ⟨1, 5, 7, 10⟩ ∧
    (recordVersion true histW 5 7 3).2 = histW := by
  exact (c1_version_sequence_append_only true histW 5 7 3 rfl).2.2.2.1
    ⟨1, 5, 7, 10⟩ rfl rfl rfl

/-! ### Orchestrator concurrency lemmas (C7) -/

lemma countP_set_false (p : OrchJob → Bool) :
    ∀ (l : List OrchJob) (i : Nat) (x : OrchJob), p x = false →
      (l.set i x).countP p ≤ l.countP p := by
  intro l
  induction l with
  | nil => intro i x hx; simp
  | cons a t ih =>
    intro i x hx
    cases i with
    | zero =>
      rw [List.set_cons_zero, List.countP_cons, List.countP_cons, hx]
      simp only [Bool.false_eq_true, if_false]
      omega
    | succ n =>
      rw [List.set_cons_succ, List.countP_cons, List.countP_cons]
      have := ih n x hx
      omega

lemma hasProcessing_false_count (jobs : List OrchJob) (d : String)
    (h : hasProcessing jobs d = false) : procCount jobs d = 0 := by
  unfold hasProcessing at h
  unfold procCount
  rw [List.countP_eq_zero]
  intro a ha hpa
  rw [List.any_eq_false] at h
  exact h a ha hpa

lemma applyOp_inv (jobs : List OrchJob) (op : OrchOp)
    (hinv : ∀ d, procCount jobs d ≤ 1) :
    ∀ d, procCount (applyOp jobs op) d ≤ 1 := by
  intro d
  cases op with
  | request d0 =>
    by_cases hh : hasProcessing jobs d0 = true
    · simp only [applyOp, hh, if_true]
      exact hinv d
    · rw [Bool.not_eq_true] at hh
      simp only [applyOp, hh, Bool.false_eq_true, if_false]
      unfold procCount
      rw [List.countP_cons]
      by_cases hd : d0 = d
      · subst hd
        have h0 : procCount jobs d0 = 0 := hasProcessing_false_count jobs d0 hh
        unfold procCount at h0
        rw [h0]
        split <;> omega
      · have hfalse : isProcFor d ⟨d0, PipelineStatus.PROCESSING⟩ = false := by
          simp [isProcFor, hd]
        rw [hfalse]
        simp only [Bool.false_eq_true, if_false]
        have := hinv d
        unfold procCount at this
        omega
  | finish i ok =>
    cases hg : jobs.get? i with
    | none =>
      simp only [applyOp, hg]
      exact hinv d
    | some j =>
      by_cases hs : (j.status == PipelineStatus.PROCESSING) = true
      · simp only [applyOp, hg, hs, if_true]
        refine le_trans (countP_set_false _ jobs i _ ?_) (hinv d)
        cases ok <;> simp [isProcFor]
      · rw [Bool.not_eq_true] at hs
        simp only [applyOp, hg, hs, Bool.false_eq_true, if_false]
        exact hinv d

lemma foldl_inv :
    ∀ (ops : List OrchOp) (jobs : List OrchJob),
      (∀ d, procCount jobs d ≤ 1) →
      ∀ d, procCount (ops.foldl applyOp jobs) d ≤ 1 := by
  intro ops
  induction ops with
  | nil => intro jobs h; simpa using h
  | cons op rest ih =>
    intro jobs h
    simp only [List.foldl_cons]
    exact ih (applyOp jobs op) (applyOp_inv jobs op h)

/-- Claim C7: with requests and completions handled atomically by the
orchestrator, every reachable job table has at most one Processing job per
dataset, and a request for a dataset with an in-flight Processing job is
rejected, leaving the table unchanged (it is never admitted alongside the
first job). -/
theorem c7_at_most_one_processing :
    (∀ (ops : List OrchOp) (d : String),
      procCount (ops.foldl applyOp []) d ≤ 1) ∧
    (∀ (jobs : List OrchJob) (d : String),
      hasProcessing jobs d = true → applyOp jobs (OrchOp.request d) = jobs) := by
  constructor
  · intro ops d
    exact foldl_inv ops [] (fun d' => by simp [procCount]) d
  · intro jobs d h
    simp [applyOp, h]

def orchJobs0 : List OrchJob := [⟨"dosm-1", PipelineStatus.PROCESSING⟩]

theorem c7_at_most_one_processing_witness :
    procCount ([OrchOp.request "dosm-1",
      OrchOp.request "dosm-1"].foldl applyOp []) "dosm-1" ≤ 1 ∧
    applyOp orchJobs0 (OrchOp.request "dosm-1") = orchJobs0 := by
  refine ⟨c7_at_most_one_processing.1 _ "dosm-1", ?_⟩
  exact c7_at_most_one_processing.2 orchJobs0 "dosm-1" (by decide)

end HealthPulse
